import Mathlib

/-!
Verification of the separator-expansion engine of `fill_interstices.py`
(nicky-wordtools): the mask parser, the expansion state, the expansion
engine, and the line driver, embedded shallowly in Lean.

Python strings are modelled as `String` / `List Char`; the raised
`ValueError` of the parser becomes the `Except.error` branch; the
possibility of a `KeyError` on the shift-table dictionary access is
modelled by an `Option` layer around the expansion engine (`none` models
an uncaught `KeyError`).
-/

set_option maxHeartbeats 2000000
set_option linter.unusedVariables false

namespace Fill

/-- Embedding of `_SHIFT_MAP`: the dict mapping each digit char to its
shift-row symbol; a Python dict access `_SHIFT_MAP[d]` is defined only on
the ten keys, hence `Option`. -/
def SHIFT_MAP : Char → Option Char
  | '1' => some '!'
  | '2' => some '@'
  | '3' => some '#'
  | '4' => some '$'
  | '5' => some '%'
  | '6' => some '^'
  | '7' => some '&'
  | '8' => some '*'
  | '9' => some '('
  | '0' => some ')'
  | _ => none

/-- Embedding of the AST element tuples of `parse_mask`:
`('d',)`, `('caret',)`, `('group', sub, reverse)`, `('lit', c)`. -/
inductive Element where
  | d : Element
  | caret : Element
  | group : List Element → Bool → Element
  | lit : Char → Element

/-- Embedding of class `State`: digit queue and next reference index. -/
structure EState where
  digits : List Char
  next_ref : Nat
deriving DecidableEq, Repr

/-- One step of the depth bookkeeping of the group scan:
`if mask[j] == that-open-brace: depth += 1 elif close-brace: depth -= 1`. -/
def scanStep (depth : Nat) (c : Char) : Nat :=
  if c = '{' then depth + 1 else if c = '}' then depth - 1 else depth

/-- The inner scanning loop of `parse_mask` for a group opener: starting
just after an open brace at nesting depth `depth` (initially 1), scan
forward adjusting the depth at each brace; return `(content, tail)` where
`content` is everything strictly before the matching close brace and
`tail` everything after it, or `none` when the string ends first. -/
def scanGroup : List Char → Nat → Option (List Char × List Char)
  | [], _ => none
  | c :: rest, depth =>
    if scanStep depth c = 0 then some ([], rest)
    else
      match scanGroup rest (scanStep depth c) with
      | none => none
      | some (content, tail) => some (c :: content, tail)

theorem scanGroup_length : ∀ (cs : List Char) (d : Nat) (content tail : List Char),
    scanGroup cs d = some (content, tail) →
    content.length + tail.length + 1 = cs.length := by
  intro cs
  induction cs with
  | nil => intro d content tail h; exact absurd h (by simp [scanGroup])
  | cons c rest ih =>
    intro d content tail h
    rw [scanGroup] at h
    by_cases h0 : scanStep d c = 0
    · rw [if_pos h0] at h
      simp only [Option.some.injEq, Prod.mk.injEq] at h
      obtain ⟨rfl, rfl⟩ := h
      simp
    · rw [if_neg h0] at h
      cases hs : scanGroup rest (scanStep d c) with
      | none => rw [hs] at h; cases h
      | some p =>
        obtain ⟨content', tail'⟩ := p
        rw [hs] at h
        simp only [Option.some.injEq, Prod.mk.injEq] at h
        obtain ⟨rfl, rfl⟩ := h
        have := ih _ content' tail' hs
        simp only [List.length_cons]
        omega

/-- The check `if j < n and mask[j] == '-'` after a closed group: consume
an optional leading reverse marker from the tail, returning the reverse
flag and what remains. -/
def dropRev : List Char → Bool × List Char
  | '-' :: t => (true, t)
  | t => (false, t)

theorem dropRev_length (t : List Char) : (dropRev t).2.length ≤ t.length := by
  match t with
  | [] => simp [dropRev]
  | c :: rest =>
    by_cases hc : c = '-'
    · subst hc; simp [dropRev]
    · have : dropRev (c :: rest) = (false, c :: rest) := by
        unfold dropRev
        split <;> simp_all
      simp [this]

/-- The `ValueError` message raised for an unmatched group opener:
`f"Unmatched \x27\x7b\x27 in mask: \x7bmask\x7d"`. -/
def unmatchedMsg (orig : List Char) : String :=
  "Unmatched \x27\x7b\x27 in mask: " ++ String.mk orig

mutual

/-- The body of `parse_mask`: the scanning loop over the remaining
characters, with `orig` the full mask string of the current call (used in
the error message). Markers are matched with the priority of the source:
`?d`, then `?^`, then a group opener, else a literal character. -/
def parseMaskAux (orig : List Char) (l : List Char) : Except String (List Element) :=
  match l with
  | [] => Except.ok []
  | '?' :: 'd' :: rest =>
    match parseMaskAux orig rest with
    | Except.error e => Except.error e
    | Except.ok es => Except.ok (Element.d :: es)
  | '?' :: '^' :: rest =>
    match parseMaskAux orig rest with
    | Except.error e => Except.error e
    | Except.ok es => Except.ok (Element.caret :: es)
  | '{' :: rest =>
    match h : scanGroup rest 1 with
    | none => Except.error (unmatchedMsg orig)
    | some (content, tail) =>
      match parseMaskL content with
      | Except.error e => Except.error e
      | Except.ok sub =>
        match parseMaskAux orig (dropRev tail).2 with
        | Except.error e => Except.error e
        | Except.ok es => Except.ok (Element.group sub (dropRev tail).1 :: es)
  | c :: rest =>
    match parseMaskAux orig rest with
    | Except.error e => Except.error e
    | Except.ok es => Except.ok (Element.lit c :: es)
termination_by l.length
decreasing_by
  all_goals simp_wf
  all_goals first
  | omega
  | (have hlen := scanGroup_length _ _ _ _ h
     have hdr := dropRev_length tail
     omega)

/-- `parse_mask` on a list of characters: each call scans its own mask
(`orig` starts as the whole of it); groups recurse via `parse_mask(content)`. -/
def parseMaskL (mask : List Char) : Except String (List Element) :=
  parseMaskAux mask mask
termination_by mask.length + 1
decreasing_by simp_wf

end

/-- Embedding of `parse_mask` on Python strings. -/
def parse_mask (mask : String) : Except String (List Element) :=
  parseMaskL mask.data

/-- The digit characters produced by `map(str, range(10))`, in that order. -/
def digitChars : List Char :=
  ['0', '1', '2', '3', '4', '5', '6', '7', '8', '9']

mutual

/-- The children one partial result `(out, st)` produces for one element,
in order: the body of the four `if typ == ...` branches of
`expand_elements`. `none` models an uncaught `KeyError` on the
`_SHIFT_MAP[d]` access. -/
def childrenOf (el : Element) (out : String) (st : EState) :
    Option (List (String × EState)) :=
  match el with
  | Element.d =>
    some (digitChars.map (fun d => (out.push d, EState.mk (st.digits ++ [d]) st.next_ref)))
  | Element.caret =>
    match st.digits.get? st.next_ref with
    | none => some []
    | some d =>
      match SHIFT_MAP d with
      | none => none
      | some sym => some [(out.push sym, EState.mk st.digits (st.next_ref + 1))]
  | Element.group sub rev =>
    match expand_elements sub st with
    | none => none
    | some grp =>
      some (grp.map (fun p =>
        (out ++ (if rev then String.mk p.1.data.reverse else p.1), p.2)))
  | Element.lit c =>
    some [(out.push c, st)]
termination_by (sizeOf el, 0, 0)

/-- The inner `for out, st in results` loop of `expand_elements` for one
element: the worklist is replaced by the concatenation of each partial
result's children, earlier entries first. -/
def stepOne (el : Element) (results : List (String × EState)) :
    Option (List (String × EState)) :=
  match results with
  | [] => some []
  | (out, st) :: more =>
    match childrenOf el out st, stepOne el more with
    | some cs, some ms => some (cs ++ ms)
    | _, _ => none
termination_by (sizeOf el, 0, sizeOf results)

/-- The outer `for el in elems` loop of `expand_elements`: process each
element against the entire current worklist. -/
def stepAll (elems : List Element) (results : List (String × EState)) :
    Option (List (String × EState)) :=
  match elems with
  | [] => some results
  | el :: rest =>
    match stepOne el results with
    | none => none
    | some nr => stepAll rest nr
termination_by (sizeOf elems, 1, 0)

/-- Embedding of `expand_elements`: recursively expand AST elements from
the worklist `[("", state)]`, returning the list of (output, new state)
pairs. -/
def expand_elements (elems : List Element) (state : EState) :
    Option (List (String × EState)) :=
  stepAll elems [("", state)]
termination_by (sizeOf elems, 2, 0)

end

/-- Embedding of `generate_separators`: parse the mask, expand from the
empty state, and keep only the output strings. The `ValueError` of the
parser propagates; the (never reached) `KeyError` of the engine is the
remaining failure. -/
def generate_separators (mask : String) : Except String (List String) :=
  match parse_mask mask with
  | Except.error e => Except.error e
  | Except.ok ast =>
    match expand_elements ast (EState.mk [] 0) with
    | none => Except.error "KeyError"
    | some exps => Except.ok (exps.map Prod.fst)

/-- The whitespace predicate of CPython's `str.strip()` / `str.split()`
(with no argument): a character is whitespace when it is U+0009-U+000D
(tab, LF, VT, FF, CR), U+001C-U+001F (file/group/record/unit separator),
the space U+0020, U+0085 (next line), U+00A0 (no-break space), or one of
the Unicode separators U+1680 (Ogham space), U+2000-U+200A (fixed-width
spaces), U+2028 (line separator), U+2029 (paragraph separator), U+202F
(narrow no-break space), U+205F (medium mathematical space), U+3000
(ideographic space). -/
def isSpace (c : Char) : Bool :=
  decide ((9 ≤ c.toNat ∧ c.toNat ≤ 13) ∨ (28 ≤ c.toNat ∧ c.toNat ≤ 31) ∨
    c.toNat = 32 ∨ c.toNat = 0x85 ∨ c.toNat = 0xA0 ∨ c.toNat = 0x1680 ∨
    (0x2000 ≤ c.toNat ∧ c.toNat ≤ 0x200A) ∨ c.toNat = 0x2028 ∨ c.toNat = 0x2029 ∨
    c.toNat = 0x202F ∨ c.toNat = 0x205F ∨ c.toNat = 0x3000)

/-- Accumulating loop behind `pyWords`: `acc` holds the current word
reversed. -/
def wordsAux : List Char → List Char → List String
  | [], acc => if acc.isEmpty then [] else [String.mk acc.reverse]
  | c :: rest, acc =>
    if isSpace c then
      if acc.isEmpty then wordsAux rest []
      else String.mk acc.reverse :: wordsAux rest []
    else wordsAux rest (c :: acc)

/-- `raw.strip().split()` of the driver: split on runs of whitespace,
ignoring leading and trailing whitespace (the `strip()` is subsumed by the
no-argument `split()`). -/
def pyWords (s : List Char) : List String :=
  wordsAux s []

/-- The cache-building loop of `fill_interstices`: one separator list per
mask, in supply order; the first raised parse error propagates before any
line is processed. -/
def buildCache : List String → Except String (List (List String))
  | [] => Except.ok []
  | m :: ms =>
    match generate_separators m with
    | Except.error e => Except.error e
    | Except.ok seps =>
      match buildCache ms with
      | Except.error e => Except.error e
      | Except.ok rest => Except.ok (seps :: rest)

/-- Embedding of `fill_interstices`: compute the separator cache for every
mask up front, then for each line in order, skip it unless it splits into
exactly two words, and otherwise emit `word1 + sep + word2` for every mask
in supply order and every separator in that mask's cached order. -/
def fill_interstices (lines masks : List String) : Except String (List String) :=
  match buildCache masks with
  | Except.error e => Except.error e
  | Except.ok sepss =>
    Except.ok (lines.flatMap (fun raw =>
      match pyWords raw.data with
      | [w1, w2] => sepss.flatMap (fun seps => seps.map (fun sep => w1 ++ sep ++ w2))
      | _ => []))

/-!
## Unmatched group openers

`bal c l` runs the brace counter of the parser over `l` starting from
nesting depth `c`: an open brace pushes a level, a close brace pops one
when any level is open and is a plain literal otherwise.  `bal 0 l ≠ 0`
is the formal reading of "`l` contains an unmatched open brace": some
opener is never closed.
-/

def bal : Nat → List Char → Nat
  | c, [] => c
  | c, x :: t =>
    if x = '{' then bal (c + 1) t
    else if x = '}' then (if c = 0 then bal 0 t else bal (c - 1) t)
    else bal c t

theorem bal_open (c : Nat) (t : List Char) : bal c ('{' :: t) = bal (c + 1) t := by
  simp [bal]

theorem bal_close_pos (c : Nat) (t : List Char) (hc : 0 < c) :
    bal c ('}' :: t) = bal (c - 1) t := by
  rw [bal]
  simp [Nat.pos_iff_ne_zero.mp hc]

theorem bal_close_zero (t : List Char) : bal 0 ('}' :: t) = bal 0 t := by
  simp [bal]

theorem bal_nonbrace (c : Nat) (x : Char) (t : List Char)
    (h1 : x ≠ '{') (h2 : x ≠ '}') : bal c (x :: t) = bal c t := by
  rw [bal]
  simp [h1, h2]

theorem bal_append (xs : List Char) : ∀ (c : Nat) (ys : List Char),
    bal c (xs ++ ys) = bal (bal c xs) ys := by
  induction xs with
  | nil => intro c ys; simp [bal]
  | cons x t ih =>
    intro c ys
    by_cases h1 : x = '{'
    · subst h1; rw [List.cons_append, bal_open, bal_open, ih]
    · by_cases h2 : x = '}'
      · subst h2
        rcases Nat.eq_zero_or_pos c with hc | hc
        · subst hc; rw [List.cons_append, bal_close_zero, bal_close_zero, ih]
        · rw [List.cons_append, bal_close_pos _ _ hc, bal_close_pos _ _ hc, ih]
      · rw [List.cons_append, bal_nonbrace _ _ _ h1 h2, bal_nonbrace _ _ _ h1 h2, ih]

theorem bal_no_close_ge (ys : List Char) : ∀ (a : Nat),
    (∀ c ∈ ys, c ≠ '}') → a ≤ bal a ys := by
  induction ys with
  | nil => intro a _; simp [bal]
  | cons y t ih =>
    intro a hy
    have hyt : ∀ c ∈ t, c ≠ '}' := fun c hc => hy c (List.mem_cons_of_mem _ hc)
    by_cases h1 : y = '{'
    · subst h1
      rw [bal_open]
      calc a ≤ a + 1 := Nat.le_succ a
        _ ≤ bal (a + 1) t := ih _ hyt
    · rw [bal_nonbrace _ _ _ h1 (hy y (List.mem_cons_self _ _))]
      exact ih _ hyt

theorem bal_cons_scanStep (c : Char) (d : Nat) (t : List Char) (hd : 1 ≤ d) :
    bal d (c :: t) = bal (scanStep d c) t := by
  by_cases h1 : c = '{'
  · subst h1; rw [bal_open]; simp [scanStep]
  · by_cases h2 : c = '}'
    · subst h2
      rw [bal_close_pos _ _ (by omega)]
      simp [scanStep]
    · rw [bal_nonbrace _ _ _ h1 h2]
      simp [scanStep, h1, h2]

theorem scanStep_pos_of_ne (c : Char) (d : Nat) (hd : 1 ≤ d)
    (h : scanStep d c ≠ 0) : 1 ≤ scanStep d c := by omega

/-- When the group scan succeeds, running the brace counter from the scan
depth over the whole scanned string lands at the counter of the tail run
from depth 0 (top level resumes after the matching close). -/
theorem scanGroup_some_bal : ∀ (cs : List Char) (d : Nat), 1 ≤ d →
    ∀ content tail, scanGroup cs d = some (content, tail) →
    bal d cs = bal 0 tail := by
  intro cs
  induction cs with
  | nil => intro d hd content tail h; exact absurd h (by simp [scanGroup])
  | cons c rest ih =>
    intro d hd content tail h
    rw [scanGroup] at h
    by_cases h0 : scanStep d c = 0
    · rw [if_pos h0] at h
      simp only [Option.some.injEq, Prod.mk.injEq] at h
      obtain ⟨rfl, rfl⟩ := h
      rw [bal_cons_scanStep c d rest hd, h0]
    · rw [if_neg h0] at h
      cases hs : scanGroup rest (scanStep d c) with
      | none => rw [hs] at h; cases h
      | some p =>
        obtain ⟨content', tail'⟩ := p
        rw [hs] at h
        simp only [Option.some.injEq, Prod.mk.injEq] at h
        obtain ⟨rfl, rfl⟩ := h
        rw [bal_cons_scanStep c d rest hd]
        exact ih _ (scanStep_pos_of_ne c d hd h0) _ _ hs

/-- When the group scan runs out of characters, the brace counter from the
scan depth stays positive for the whole string: some opener is never
closed. -/
theorem scanGroup_none_bal : ∀ (cs : List Char) (d : Nat), 1 ≤ d →
    scanGroup cs d = none → 1 ≤ bal d cs := by
  intro cs
  induction cs with
  | nil => intro d hd _; simpa [bal] using hd
  | cons c rest ih =>
    intro d hd h
    rw [scanGroup] at h
    by_cases h0 : scanStep d c = 0
    · rw [if_pos h0] at h; cases h
    · rw [if_neg h0] at h
      rw [bal_cons_scanStep c d rest hd]
      cases hs : scanGroup rest (scanStep d c) with
      | none => exact ih _ (scanStep_pos_of_ne c d hd h0) hs
      | some p => rw [hs] at h; cases h

/-- The content of a successfully scanned group is itself balanced: the
brace counter started one below the scan depth runs over the content and
comes back to zero surplus. -/
theorem scanGroup_content_bal : ∀ (cs : List Char) (d : Nat), 1 ≤ d →
    ∀ content tail, scanGroup cs d = some (content, tail) →
    bal (d - 1) content = 0 := by
  intro cs
  induction cs with
  | nil => intro d hd content tail h; exact absurd h (by simp [scanGroup])
  | cons c rest ih =>
    intro d hd content tail h
    rw [scanGroup] at h
    by_cases h0 : scanStep d c = 0
    · rw [if_pos h0] at h
      simp only [Option.some.injEq, Prod.mk.injEq] at h
      obtain ⟨rfl, rfl⟩ := h
      have hd1 : d = 1 := by
        by_cases h1 : c = '{'
        · simp [scanStep, h1] at h0
        · by_cases h2 : c = '}'
          · simp [scanStep, h1, h2] at h0; omega
          · simp [scanStep, h1, h2] at h0; omega
      subst hd1
      simp [bal]
    · rw [if_neg h0] at h
      cases hs : scanGroup rest (scanStep d c) with
      | none => rw [hs] at h; cases h
      | some p =>
        obtain ⟨content', tail'⟩ := p
        rw [hs] at h
        simp only [Option.some.injEq, Prod.mk.injEq] at h
        obtain ⟨rfl, rfl⟩ := h
        have hstep := scanStep_pos_of_ne c d hd h0
        have ihc := ih _ hstep _ _ hs
        by_cases h1 : c = '{'
        · subst h1
          have hd2 : scanStep d '{' = d + 1 := by simp [scanStep]
          rw [hd2] at ihc
          rw [bal_open]
          have harith : d - 1 + 1 = d := by omega
          rw [harith]
          simpa using ihc
        · by_cases h2 : c = '}'
          · subst h2
            have hd2 : scanStep d '}' = d - 1 := by simp [scanStep]
            rw [hd2] at ihc hstep
            rw [bal_close_pos _ _ (by omega)]
            exact ihc
          · have hd2 : scanStep d c = d := by simp [scanStep, h1, h2]
            rw [hd2] at ihc
            rw [bal_nonbrace _ _ _ h1 h2]
            exact ihc

theorem bal_dropRev (t : List Char) : bal 0 (dropRev t).2 = bal 0 t := by
  match t with
  | [] => rfl
  | c :: rest =>
    by_cases hc : c = '-'
    · subst hc
      show bal 0 rest = bal 0 ('-' :: rest)
      rw [bal_nonbrace _ _ _ (by decide) (by decide)]
    · have hdr : dropRev (c :: rest) = (false, c :: rest) := by
        unfold dropRev
        split <;> simp_all
      rw [hdr]

/-! Unfolding lemmas for the arms of the parser loop. -/

theorem pm_lit1 (orig : List Char) (c : Char) (t : List Char)
    (h1 : c ≠ '?') (h2 : c ≠ '{') :
    parseMaskAux orig (c :: t) =
      match parseMaskAux orig t with
      | Except.error e => Except.error e
      | Except.ok es => Except.ok (Element.lit c :: es) :=
  parseMaskAux.eq_5 orig c t (fun _ hq _ => h1 hq) (fun _ hq _ => h1 hq)
    (fun hb => h2 hb)

theorem pm_lit2 (orig : List Char) (c : Char) (t : List Char)
    (h1 : c ≠ 'd') (h2 : c ≠ '^') :
    parseMaskAux orig ('?' :: c :: t) =
      match parseMaskAux orig (c :: t) with
      | Except.error e => Except.error e
      | Except.ok es => Except.ok (Element.lit '?' :: es) :=
  parseMaskAux.eq_5 orig '?' (c :: t)
    (fun _ _ hr => h1 (List.head_eq_of_cons_eq hr))
    (fun _ _ hr => h2 (List.head_eq_of_cons_eq hr))
    (fun hb => by cases hb)

theorem pm_lit3 (orig : List Char) :
    parseMaskAux orig ['?'] = Except.ok [Element.lit '?'] := by
  rw [parseMaskAux.eq_5 orig '?' [] (fun _ _ hr => List.noConfusion hr)
    (fun _ _ hr => List.noConfusion hr) (fun hb => by cases hb)]
  rw [parseMaskAux.eq_1]

theorem pm_open_none (orig rest : List Char) (h : scanGroup rest 1 = none) :
    parseMaskAux orig ('{' :: rest) = Except.error (unmatchedMsg orig) := by
  rw [parseMaskAux.eq_4]
  split
  · rfl
  · rename_i content' tail' heq
    rw [h] at heq
    cases heq

theorem pm_open_some (orig rest content tail : List Char)
    (h : scanGroup rest 1 = some (content, tail)) :
    parseMaskAux orig ('{' :: rest) =
      match parseMaskL content with
      | Except.error e => Except.error e
      | Except.ok sub =>
        match parseMaskAux orig (dropRev tail).2 with
        | Except.error e => Except.error e
        | Except.ok es => Except.ok (Element.group sub (dropRev tail).1 :: es) := by
  rw [parseMaskAux.eq_4]
  split
  · rename_i heq
    rw [h] at heq
    cases heq
  · rename_i content' tail' heq
    rw [h] at heq
    simp only [Option.some.injEq, Prod.mk.injEq] at heq
    obtain ⟨rfl, rfl⟩ := heq
    rfl

/-- The full behaviour of the parser loop against the brace counter: on a
balanced remainder it succeeds, on an unbalanced one it fails with exactly
the unmatched-opener `ValueError` of the enclosing call. -/
theorem parse_spec : ∀ (n : Nat) (l orig : List Char), l.length ≤ n →
    (bal 0 l = 0 → ∃ es, parseMaskAux orig l = Except.ok es) ∧
    (bal 0 l ≠ 0 → parseMaskAux orig l = Except.error (unmatchedMsg orig)) := by
  intro n
  induction n with
  | zero =>
    intro l orig hl
    have hnil : l = [] := List.length_eq_zero.mp (Nat.le_zero.mp hl)
    subst hnil
    exact ⟨fun _ => ⟨[], parseMaskAux.eq_1 orig⟩,
      fun hb => absurd (by decide : bal 0 ([] : List Char) = 0) hb⟩
  | succ n ih =>
    intro l orig hl
    cases l with
    | nil =>
      exact ⟨fun _ => ⟨[], parseMaskAux.eq_1 orig⟩,
        fun hb => absurd (by decide : bal 0 ([] : List Char) = 0) hb⟩
    | cons c t =>
      by_cases hq : c = '?'
      · subst hq
        cases t with
        | nil =>
          exact ⟨fun _ => ⟨[Element.lit '?'], pm_lit3 orig⟩,
            fun hb => absurd (by decide : bal 0 ['?'] = 0) hb⟩
        | cons c2 t2 =>
          have ht2c : (c2 :: t2).length ≤ n := by
            simp only [List.length_cons] at hl ⊢
            omega
          have ht2 : t2.length ≤ n := by
            simp only [List.length_cons] at ht2c
            omega
          by_cases hd : c2 = 'd'
          · subst hd
            obtain ⟨ih1, ih2⟩ := ih t2 orig ht2
            have hbeq : bal 0 ('?' :: 'd' :: t2) = bal 0 t2 := by
              rw [bal_nonbrace _ _ _ (by decide) (by decide),
                bal_nonbrace _ _ _ (by decide) (by decide)]
            constructor
            · intro hb
              obtain ⟨es, hes⟩ := ih1 (by rwa [hbeq] at hb)
              exact ⟨Element.d :: es, by rw [parseMaskAux.eq_2, hes]⟩
            · intro hb
              rw [parseMaskAux.eq_2, ih2 (by rwa [hbeq] at hb)]
          · by_cases hc : c2 = '^'
            · subst hc
              obtain ⟨ih1, ih2⟩ := ih t2 orig ht2
              have hbeq : bal 0 ('?' :: '^' :: t2) = bal 0 t2 := by
                rw [bal_nonbrace _ _ _ (by decide) (by decide),
                  bal_nonbrace _ _ _ (by decide) (by decide)]
              constructor
              · intro hb
                obtain ⟨es, hes⟩ := ih1 (by rwa [hbeq] at hb)
                exact ⟨Element.caret :: es, by rw [parseMaskAux.eq_3, hes]⟩
              · intro hb
                rw [parseMaskAux.eq_3, ih2 (by rwa [hbeq] at hb)]
            · obtain ⟨ih1, ih2⟩ := ih (c2 :: t2) orig ht2c
              have hbeq : bal 0 ('?' :: c2 :: t2) = bal 0 (c2 :: t2) := by
                rw [bal_nonbrace _ _ _ (by decide) (by decide)]
              constructor
              · intro hb
                obtain ⟨es, hes⟩ := ih1 (by rwa [hbeq] at hb)
                exact ⟨Element.lit '?' :: es, by rw [pm_lit2 orig c2 t2 hd hc, hes]⟩
              · intro hb
                rw [pm_lit2 orig c2 t2 hd hc, ih2 (by rwa [hbeq] at hb)]
      · by_cases hbrace : c = '{'
        · subst hbrace
          have ht : t.length ≤ n := by
            simp only [List.length_cons] at hl
            omega
          cases hscan : scanGroup t 1 with
          | none =>
            have hpos : 1 ≤ bal 1 t := scanGroup_none_bal t 1 (Nat.le_refl 1) hscan
            constructor
            · intro hb
              have hz : bal 1 t = 0 := by
                rw [bal_open] at hb
                simpa using hb
              omega
            · intro _
              exact pm_open_none orig t hscan
          | some p =>
            obtain ⟨content, tail⟩ := p
            have hlen := scanGroup_length t 1 content tail hscan
            have hcb : bal 0 content = 0 := by
              simpa using scanGroup_content_bal t 1 (Nat.le_refl 1) content tail hscan
            have htb : bal 1 t = bal 0 tail := scanGroup_some_bal t 1 (Nat.le_refl 1) content tail hscan
            obtain ⟨ihc1, _⟩ := ih content content (by omega)
            obtain ⟨sub, hsub⟩ := ihc1 hcb
            have hpl : parseMaskL content = Except.ok sub := by
              rw [parseMaskL]
              exact hsub
            have hdrb : bal 0 (dropRev tail).2 = bal 0 tail := bal_dropRev tail
            have hdrlen : (dropRev tail).2.length ≤ tail.length := dropRev_length tail
            obtain ⟨iht1, iht2⟩ := ih (dropRev tail).2 orig (by omega)
            have hbeq : bal 0 ('{' :: t) = bal 0 (dropRev tail).2 := by
              rw [bal_open, htb, hdrb]
            constructor
            · intro hb
              obtain ⟨es, hes⟩ := iht1 (by rwa [hbeq] at hb)
              refine ⟨Element.group sub (dropRev tail).1 :: es, ?_⟩
              rw [pm_open_some orig t content tail hscan, hpl, hes]
            · intro hb
              rw [pm_open_some orig t content tail hscan, hpl, iht2 (by rwa [hbeq] at hb)]
        · have ht : t.length ≤ n := by
            simp only [List.length_cons] at hl
            omega
          obtain ⟨ih1, ih2⟩ := ih t orig ht
          have hbeq : bal 0 (c :: t) = bal 0 t := by
            by_cases hcl : c = '}'
            · subst hcl; exact bal_close_zero t
            · exact bal_nonbrace _ _ _ hbrace hcl
          constructor
          · intro hb
            obtain ⟨es, hes⟩ := ih1 (by rwa [hbeq] at hb)
            exact ⟨Element.lit c :: es, by rw [pm_lit1 orig c t hq hbrace, hes]⟩
          · intro hb
            rw [pm_lit1 orig c t hq hbrace, ih2 (by rwa [hbeq] at hb)]

/-!
## The digit-history invariant of the expansion engine

Only `DigitSlot` ever appends to a state's digit history, and it appends
one of the ten digit characters; so every reachable state holds only
digit characters, and the `_SHIFT_MAP[d]` lookup of a back-reference is
always defined.
-/

/-- Every character in the state's digit history is a digit character. -/
def GoodSt (st : EState) : Prop := ∀ c ∈ st.digits, c ∈ digitChars

/-- Every state in a worklist satisfies the digit invariant. -/
def GoodRes (l : List (String × EState)) : Prop := ∀ p ∈ l, GoodSt p.2

theorem shift_total : ∀ c ∈ digitChars, (SHIFT_MAP c).isSome := by decide

mutual

theorem childrenOf_good (el : Element) (out : String) (st : EState) (hst : GoodSt st) :
    ∃ cs, childrenOf el out st = some cs ∧ GoodRes cs := by
  match el with
  | Element.d =>
    refine ⟨_, by rw [childrenOf], ?_⟩
    intro p hp
    simp only [List.mem_map] at hp
    obtain ⟨dch, hdch, rfl⟩ := hp
    intro ch hch
    simp only [List.mem_append, List.mem_singleton] at hch
    rcases hch with h | h
    · exact hst ch h
    · subst h; exact hdch
  | Element.caret =>
    cases hg : st.digits.get? st.next_ref with
    | none =>
      exact ⟨[], by rw [childrenOf, hg], fun p hp => absurd hp (List.not_mem_nil p)⟩
    | some dch =>
      have hmem : dch ∈ st.digits := List.get?_mem hg
      have hsome := shift_total dch (hst dch hmem)
      obtain ⟨sym, hsym⟩ := Option.isSome_iff_exists.mp hsome
      refine ⟨[(out.push sym, EState.mk st.digits (st.next_ref + 1))],
        by rw [childrenOf, hg]; simp [hsym], ?_⟩
      intro p hp
      simp only [List.mem_singleton] at hp
      subst hp
      exact hst
  | Element.group sub rev =>
    obtain ⟨l, hl, hgl⟩ := expand_elements_good sub st hst
    refine ⟨_, by rw [childrenOf, hl], ?_⟩
    intro p hp
    simp only [List.mem_map] at hp
    obtain ⟨q, hq, rfl⟩ := hp
    exact hgl q hq
  | Element.lit c =>
    refine ⟨[(out.push c, st)], by rw [childrenOf], ?_⟩
    intro p hp
    simp only [List.mem_singleton] at hp
    subst hp
    exact hst
termination_by (sizeOf el, 0, 0)

theorem stepOne_good (el : Element) (results : List (String × EState))
    (h : GoodRes results) : ∃ l, stepOne el results = some l ∧ GoodRes l := by
  match results with
  | [] =>
    exact ⟨[], by rw [stepOne], fun p hp => absurd hp (List.not_mem_nil p)⟩
  | (out, st) :: more =>
    obtain ⟨cs, hcs, hgcs⟩ := childrenOf_good el out st (h (out, st) (List.mem_cons_self _ _))
    obtain ⟨ms, hms, hgms⟩ := stepOne_good el more (fun p hp => h p (List.mem_cons_of_mem _ hp))
    refine ⟨cs ++ ms, by rw [stepOne, hcs, hms], ?_⟩
    intro p hp
    rcases List.mem_append.mp hp with h' | h'
    · exact hgcs p h'
    · exact hgms p h'
termination_by (sizeOf el, 0, sizeOf results)

theorem stepAll_good (elems : List Element) (results : List (String × EState))
    (h : GoodRes results) : ∃ l, stepAll elems results = some l ∧ GoodRes l := by
  match elems with
  | [] => exact ⟨results, by rw [stepAll], h⟩
  | el :: rest =>
    obtain ⟨nr, hnr, hgnr⟩ := stepOne_good el results h
    obtain ⟨l, hl, hgl⟩ := stepAll_good rest nr hgnr
    refine ⟨l, ?_, hgl⟩
    rw [stepAll, hnr]
    exact hl
termination_by (sizeOf elems, 1, 0)

theorem expand_elements_good (elems : List Element) (st : EState) (h : GoodSt st) :
    ∃ l, expand_elements elems st = some l ∧ GoodRes l := by
  have h0 : GoodRes [("", st)] := by
    intro p hp
    simp only [List.mem_singleton] at hp
    subst hp
    exact h
  obtain ⟨l, hl, hgl⟩ := stepAll_good elems [("", st)] h0
  refine ⟨l, ?_, hgl⟩
  rw [expand_elements]
  exact hl
termination_by (sizeOf elems, 2, 0)

end

/-!
## Structural lemmas about the engine order and the group reverse flag
-/

/-- Earlier worklist entries always precede later ones: one step over a
worklist headed by `(out, st)` is that entry's children followed by the
children of the rest. -/
theorem stepOne_order (el : Element) (out : String) (st : EState)
    (more : List (String × EState)) (cs ms : List (String × EState))
    (h1 : childrenOf el out st = some cs) (h2 : stepOne el more = some ms) :
    stepOne el ((out, st) :: more) = some (cs ++ ms) := by
  rw [stepOne, h1, h2]

/-- Expanding a single element from a state is exactly that element's
fan-out of the initial partial result. -/
theorem expand_single (g : Element) (st : EState) :
    expand_elements [g] st =
      match childrenOf g "" st with
      | none => none
      | some cs => some cs := by
  cases hc : childrenOf g "" st with
  | none => simp [expand_elements, stepAll, stepOne, hc]
  | some cs => simp [expand_elements, stepAll, stepOne, hc]

/-- A `DigitSlot` fans each partial result out into exactly ten children,
one per digit in ascending order `0`–`9`, each appending its digit to
both the output and the digit history. -/
theorem childrenOf_d (out : String) (st : EState) :
    ∃ cs, childrenOf Element.d out st = some cs ∧ cs.length = 10 ∧
      ∀ k, k < 10 → cs.get? k = some (out.push (Char.ofNat (48 + k)),
        EState.mk (st.digits ++ [Char.ofNat (48 + k)]) st.next_ref) := by
  refine ⟨_, by rw [childrenOf], by simp [digitChars], ?_⟩
  intro k hk
  interval_cases k <;> simp [digitChars]

/-- A `BackReference` whose cursor points at or past the end of the digit
history produces zero children: the branch is silently pruned, without
error. -/
theorem caret_prune (out : String) (st : EState)
    (h : st.digits.length ≤ st.next_ref) :
    childrenOf Element.caret out st = some [] := by
  have hg : st.digits.get? st.next_ref = none := List.get?_eq_none.mpr h
  rw [childrenOf, hg]

/-- The reverse flag of a group only reverses each emitted sub-output
string; the resulting list, its order, and every resulting state are
otherwise identical. -/
theorem expand_group_reverse (sub : List Element) (st : EState) :
    expand_elements [Element.group sub true] st =
      Option.map (List.map (fun p => (String.mk p.1.data.reverse, p.2)))
        (expand_elements [Element.group sub false] st) := by
  rw [expand_single, expand_single, childrenOf, childrenOf]
  cases he : expand_elements sub st with
  | none => rfl
  | some grp =>
    simp only [Option.map_some', List.map_map]
    rfl

/-!
## Fueled executable mirrors

The recursive functions above are defined by well-founded recursion, so
the kernel cannot evaluate them on concrete masks.  The mirrors below are
structurally recursive on an explicit fuel argument (`none` means the
fuel ran out) and are proved sound against the real definitions: a
`some` result of a mirror is the value of the corresponding function.
Concrete evaluations then reduce in the kernel through the mirrors.
-/

def parseMaskAuxF : Nat → List Char → List Char → Option (Except String (List Element))
  | 0, _, _ => none
  | _ + 1, _, [] => some (Except.ok [])
  | fuel + 1, orig, '?' :: 'd' :: rest =>
    match parseMaskAuxF fuel orig rest with
    | none => none
    | some (Except.error e) => some (Except.error e)
    | some (Except.ok es) => some (Except.ok (Element.d :: es))
  | fuel + 1, orig, '?' :: '^' :: rest =>
    match parseMaskAuxF fuel orig rest with
    | none => none
    | some (Except.error e) => some (Except.error e)
    | some (Except.ok es) => some (Except.ok (Element.caret :: es))
  | fuel + 1, orig, '{' :: rest =>
    match scanGroup rest 1 with
    | none => some (Except.error (unmatchedMsg orig))
    | some (content, tail) =>
      match parseMaskAuxF fuel content content with
      | none => none
      | some (Except.error e) => some (Except.error e)
      | some (Except.ok sub) =>
        match parseMaskAuxF fuel orig (dropRev tail).2 with
        | none => none
        | some (Except.error e) => some (Except.error e)
        | some (Except.ok es) => some (Except.ok (Element.group sub (dropRev tail).1 :: es))
  | fuel + 1, orig, c :: rest =>
    match parseMaskAuxF fuel orig rest with
    | none => none
    | some (Except.error e) => some (Except.error e)
    | some (Except.ok es) => some (Except.ok (Element.lit c :: es))

/-- Soundness of one marker arm: if the fueled recursion on the remainder
agrees with the real parser, so does the wrapped result. -/
theorem parse_mapF_sound (fuel : Nat)
    (ih : ∀ (orig l : List Char) (r : Except String (List Element)),
      parseMaskAuxF fuel orig l = some r → parseMaskAux orig l = r)
    (orig rest : List Char) (f : List Element → List Element)
    (r : Except String (List Element))
    (h : (match parseMaskAuxF fuel orig rest with
          | none => none
          | some (Except.error e) => some (Except.error e)
          | some (Except.ok es) => some (Except.ok (f es))) = some r) :
    (match parseMaskAux orig rest with
     | Except.error e => Except.error e
     | Except.ok es => Except.ok (f es)) = r := by
  cases hf : parseMaskAuxF fuel orig rest with
  | none => rw [hf] at h; cases h
  | some v =>
    rw [ih orig rest v hf]
    rw [hf] at h
    cases v with
    | error e => cases h; rfl
    | ok es => cases h; rfl

theorem parseMaskAuxF_sound : ∀ (fuel : Nat) (orig l : List Char)
    (r : Except String (List Element)),
    parseMaskAuxF fuel orig l = some r → parseMaskAux orig l = r := by
  intro fuel
  induction fuel with
  | zero => intro orig l r h; rw [parseMaskAuxF.eq_1] at h; cases h
  | succ fuel ih =>
    intro orig l r h
    cases l with
    | nil =>
      rw [parseMaskAuxF.eq_2] at h
      cases h
      exact parseMaskAux.eq_1 orig
    | cons c t =>
      by_cases hq : c = '?'
      · subst hq
        cases t with
        | nil =>
          rw [parseMaskAuxF.eq_6 orig fuel '?' [] (fun _ _ hr => List.noConfusion hr)
            (fun _ _ hr => List.noConfusion hr) (by decide)] at h
          rw [parseMaskAux.eq_5 orig '?' [] (fun _ _ hr => List.noConfusion hr)
            (fun _ _ hr => List.noConfusion hr) (by decide)]
          exact parse_mapF_sound fuel ih orig [] _ r h
        | cons c2 t2 =>
          by_cases hd : c2 = 'd'
          · subst hd
            rw [parseMaskAuxF.eq_3] at h
            rw [parseMaskAux.eq_2]
            exact parse_mapF_sound fuel ih orig t2 _ r h
          · by_cases hc : c2 = '^'
            · subst hc
              rw [parseMaskAuxF.eq_4] at h
              rw [parseMaskAux.eq_3]
              exact parse_mapF_sound fuel ih orig t2 _ r h
            · rw [parseMaskAuxF.eq_6 orig fuel '?' (c2 :: t2)
                (fun _ _ hr => hd (List.head_eq_of_cons_eq hr))
                (fun _ _ hr => hc (List.head_eq_of_cons_eq hr)) (by decide)] at h
              rw [parseMaskAux.eq_5 orig '?' (c2 :: t2)
                (fun _ _ hr => hd (List.head_eq_of_cons_eq hr))
                (fun _ _ hr => hc (List.head_eq_of_cons_eq hr)) (by decide)]
              exact parse_mapF_sound fuel ih orig (c2 :: t2) _ r h
      · by_cases hbrace : c = '{'
        · subst hbrace
          rw [parseMaskAuxF.eq_5] at h
          cases hs : scanGroup t 1 with
          | none =>
            simp only [hs] at h
            cases h
            exact pm_open_none orig t hs
          | some p =>
            obtain ⟨content, tail⟩ := p
            simp only [hs] at h
            rw [pm_open_some orig t content tail hs]
            cases hf1 : parseMaskAuxF fuel content content with
            | none => rw [hf1] at h; cases h
            | some v1 =>
              have hv1 : parseMaskL content = v1 := by
                rw [parseMaskL]
                exact ih content content v1 hf1
              rw [hv1]
              rw [hf1] at h
              cases v1 with
              | error e => cases h; rfl
              | ok sub =>
                exact parse_mapF_sound fuel ih orig (dropRev tail).2 _ r h
        · rw [parseMaskAuxF.eq_6 orig fuel c t (fun _ hcq _ => hq hcq)
            (fun _ hcq _ => hq hcq) hbrace] at h
          rw [parseMaskAux.eq_5 orig c t (fun _ hcq _ => hq hcq)
            (fun _ hcq _ => hq hcq) hbrace]
          exact parse_mapF_sound fuel ih orig t _ r h

/-- Fueled mirror of `parse_mask`. -/
def parse_maskF (fuel : Nat) (mask : String) : Option (Except String (List Element)) :=
  parseMaskAuxF fuel mask.data mask.data

theorem parse_maskF_sound (fuel : Nat) (mask : String) (r : Except String (List Element))
    (h : parse_maskF fuel mask = some r) : parse_mask mask = r := by
  rw [parse_mask, parseMaskL]
  exact parseMaskAuxF_sound fuel mask.data mask.data r h

/-- Fueled mirror of `childrenOf`, parameterized by the expansion used
for group bodies.  The outer `Option` is fuel exhaustion, the inner one
the `KeyError` branch. -/
def childrenOfF (expandFn : List Element → EState → Option (Option (List (String × EState))))
    (el : Element) (out : String) (st : EState) :
    Option (Option (List (String × EState))) :=
  match el with
  | Element.d =>
    some (some (digitChars.map (fun d => (out.push d, EState.mk (st.digits ++ [d]) st.next_ref))))
  | Element.caret =>
    match st.digits.get? st.next_ref with
    | none => some (some [])
    | some d =>
      match SHIFT_MAP d with
      | none => some none
      | some sym => some (some [(out.push sym, EState.mk st.digits (st.next_ref + 1))])
  | Element.group sub rev =>
    match expandFn sub st with
    | none => none
    | some none => some none
    | some (some grp) =>
      some (some (grp.map (fun p =>
        (out ++ (if rev then String.mk p.1.data.reverse else p.1), p.2))))
  | Element.lit c =>
    some (some [(out.push c, st)])

def stepOneF (childrenFn : Element → String → EState → Option (Option (List (String × EState))))
    (el : Element) : List (String × EState) → Option (Option (List (String × EState)))
  | [] => some (some [])
  | (out, st) :: more =>
    match childrenFn el out st with
    | none => none
    | some none => some none
    | some (some cs) =>
      match stepOneF childrenFn el more with
      | none => none
      | some none => some none
      | some (some ms) => some (some (cs ++ ms))

def stepAllF (childrenFn : Element → String → EState → Option (Option (List (String × EState)))) :
    List Element → List (String × EState) → Option (Option (List (String × EState)))
  | [], results => some (some results)
  | el :: rest, results =>
    match stepOneF childrenFn el results with
    | none => none
    | some none => some none
    | some (some nr) => stepAllF childrenFn rest nr

/-- Fueled mirror of `expand_elements`; the fuel is consumed once per
nesting level of groups. -/
def expandF : Nat → List Element → EState → Option (Option (List (String × EState)))
  | 0, _, _ => none
  | fuel + 1, elems, st => stepAllF (childrenOfF (expandF fuel)) elems [("", st)]

theorem childrenOfF_sound
    (expandFn : List Element → EState → Option (Option (List (String × EState))))
    (hfn : ∀ elems st r, expandFn elems st = some r → expand_elements elems st = r)
    (el : Element) (out : String) (st : EState) (r : Option (List (String × EState)))
    (h : childrenOfF expandFn el out st = some r) : childrenOf el out st = r := by
  cases el with
  | d =>
    rw [childrenOfF] at h
    cases h
    rw [childrenOf]
  | caret =>
    rw [childrenOfF] at h
    rw [childrenOf]
    cases hg : st.digits.get? st.next_ref with
    | none =>
      simp only [hg] at h ⊢
      cases h
      rfl
    | some d =>
      simp only [hg] at h ⊢
      cases hm : SHIFT_MAP d with
      | none => simp only [hm] at h ⊢; cases h; rfl
      | some sym => simp only [hm] at h ⊢; cases h; rfl
  | group sub rev =>
    rw [childrenOfF] at h
    rw [childrenOf]
    cases he : expandFn sub st with
    | none => rw [he] at h; cases h
    | some v =>
      rw [hfn sub st v he]
      rw [he] at h
      cases v with
      | none => cases h; rfl
      | some grp => cases h; rfl
  | lit c =>
    rw [childrenOfF] at h
    cases h
    rw [childrenOf]

theorem stepOneF_sound
    (childrenFn : Element → String → EState → Option (Option (List (String × EState))))
    (hc : ∀ el out st r, childrenFn el out st = some r → childrenOf el out st = r)
    (el : Element) :
    ∀ (results : List (String × EState)) (r : Option (List (String × EState))),
    stepOneF childrenFn el results = some r → stepOne el results = r := by
  intro results
  induction results with
  | nil => intro r h; rw [stepOneF] at h; cases h; rw [stepOne]
  | cons p more ihm =>
    intro r h
    obtain ⟨out, st⟩ := p
    rw [stepOneF] at h
    rw [stepOne]
    cases hch : childrenFn el out st with
    | none => rw [hch] at h; cases h
    | some v =>
      rw [hc el out st v hch]
      rw [hch] at h
      cases v with
      | none => cases h; rfl
      | some cs =>
        cases hmo : stepOneF childrenFn el more with
        | none => rw [hmo] at h; cases h
        | some w =>
          rw [ihm w hmo]
          rw [hmo] at h
          cases w with
          | none => cases h; rfl
          | some ms => cases h; rfl

theorem stepAllF_sound
    (childrenFn : Element → String → EState → Option (Option (List (String × EState))))
    (hc : ∀ el out st r, childrenFn el out st = some r → childrenOf el out st = r) :
    ∀ (elems : List Element) (results : List (String × EState))
      (r : Option (List (String × EState))),
    stepAllF childrenFn elems results = some r → stepAll elems results = r := by
  intro elems
  induction elems with
  | nil => intro results r h; rw [stepAllF] at h; cases h; rw [stepAll]
  | cons el rest ihr =>
    intro results r h
    rw [stepAllF] at h
    rw [stepAll]
    cases hso : stepOneF childrenFn el results with
    | none => rw [hso] at h; cases h
    | some v =>
      rw [stepOneF_sound childrenFn hc el results v hso]
      rw [hso] at h
      cases v with
      | none => cases h; rfl
      | some nr => exact ihr nr r h

theorem expandF_sound : ∀ (fuel : Nat) (elems : List Element) (st : EState)
    (r : Option (List (String × EState))),
    expandF fuel elems st = some r → expand_elements elems st = r := by
  intro fuel
  induction fuel with
  | zero => intro elems st r h; cases h
  | succ fuel ih =>
    intro elems st r h
    rw [expandF] at h
    rw [expand_elements]
    exact stepAllF_sound (childrenOfF (expandF fuel))
      (childrenOfF_sound (expandF fuel) ih) elems [("", st)] r h

/-- Fueled mirror of `generate_separators`. -/
def generate_separatorsF (fuel : Nat) (mask : String) : Option (Except String (List String)) :=
  match parse_maskF fuel mask with
  | none => none
  | some (Except.error e) => some (Except.error e)
  | some (Except.ok ast) =>
    match expandF fuel ast (EState.mk [] 0) with
    | none => none
    | some none => some (Except.error "KeyError")
    | some (some exps) => some (Except.ok (exps.map Prod.fst))

theorem generate_separatorsF_sound (fuel : Nat) (mask : String)
    (r : Except String (List String))
    (h : generate_separatorsF fuel mask = some r) : generate_separators mask = r := by
  rw [generate_separatorsF] at h
  cases hp : parse_maskF fuel mask with
  | none => rw [hp] at h; cases h
  | some v =>
    simp only [hp] at h
    rw [generate_separators, parse_maskF_sound fuel mask v hp]
    cases v with
    | error e =>
      cases h
      rfl
    | ok ast =>
      show (match expand_elements ast (EState.mk [] 0) with
            | none => Except.error "KeyError"
            | some exps => Except.ok (List.map Prod.fst exps)) = r
      replace h : (match expandF fuel ast (EState.mk [] 0) with
          | none => none
          | some none => some (Except.error "KeyError")
          | some (some exps) => some (Except.ok (List.map Prod.fst exps))) = some r := h
      cases he : expandF fuel ast (EState.mk [] 0) with
      | none => rw [he] at h; cases h
      | some w =>
        simp only [he] at h
        rw [expandF_sound fuel ast (EState.mk [] 0) w he]
        cases w with
        | none => cases h; rfl
        | some exps => cases h; rfl

/-- Fueled mirror of the separator-cache loop. -/
def buildCacheF (fuel : Nat) : List String → Option (Except String (List (List String)))
  | [] => some (Except.ok [])
  | m :: ms =>
    match generate_separatorsF fuel m with
    | none => none
    | some (Except.error e) => some (Except.error e)
    | some (Except.ok seps) =>
      match buildCacheF fuel ms with
      | none => none
      | some (Except.error e) => some (Except.error e)
      | some (Except.ok rest) => some (Except.ok (seps :: rest))

theorem buildCacheF_sound (fuel : Nat) : ∀ (masks : List String)
    (r : Except String (List (List String))),
    buildCacheF fuel masks = some r → buildCache masks = r := by
  intro masks
  induction masks with
  | nil => intro r h; cases h; rfl
  | cons m ms ih =>
    intro r h
    rw [buildCacheF] at h
    rw [buildCache]
    cases hg : generate_separatorsF fuel m with
    | none => rw [hg] at h; cases h
    | some v =>
      simp only [hg] at h
      rw [generate_separatorsF_sound fuel m v hg]
      cases v with
      | error e => cases h; rfl
      | ok seps =>
        show (match buildCache ms with
              | Except.error e => Except.error e
              | Except.ok rest => Except.ok (seps :: rest)) = r
        replace h : (match buildCacheF fuel ms with
            | none => none
            | some (Except.error e) => some (Except.error e)
            | some (Except.ok rest) => some (Except.ok (seps :: rest))) = some r := h
        cases hb : buildCacheF fuel ms with
        | none => rw [hb] at h; cases h
        | some w =>
          simp only [hb] at h
          rw [ih w hb]
          cases w with
          | error e => cases h; rfl
          | ok rest => cases h; rfl

/-- Fueled mirror of `fill_interstices`. -/
def fill_intersticesF (fuel : Nat) (lines masks : List String) :
    Option (Except String (List String)) :=
  match buildCacheF fuel masks with
  | none => none
  | some (Except.error e) => some (Except.error e)
  | some (Except.ok sepss) =>
    some (Except.ok (lines.flatMap (fun raw =>
      match pyWords raw.data with
      | [w1, w2] => sepss.flatMap (fun seps => seps.map (fun sep => w1 ++ sep ++ w2))
      | _ => [])))

theorem fill_intersticesF_sound (fuel : Nat) (lines masks : List String)
    (r : Except String (List String))
    (h : fill_intersticesF fuel lines masks = some r) :
    fill_interstices lines masks = r := by
  rw [fill_intersticesF] at h
  rw [fill_interstices]
  cases hb : buildCacheF fuel masks with
  | none => rw [hb] at h; cases h
  | some v =>
    simp only [hb] at h
    rw [buildCacheF_sound fuel masks v hb]
    cases v with
    | error e => cases h; rfl
    | ok sepss => cases h; rfl

instance {e a : Type} [DecidableEq e] [DecidableEq a] : DecidableEq (Except e a) := fun x y =>
  match x, y with
  | Except.error v, Except.error w =>
    if h : v = w then isTrue (by rw [h]) else isFalse (fun hh => by cases hh; exact h rfl)
  | Except.error _, Except.ok _ => isFalse (fun hh => by cases hh)
  | Except.ok _, Except.error _ => isFalse (fun hh => by cases hh)
  | Except.ok v, Except.ok w =>
    if h : v = w then isTrue (by rw [h]) else isFalse (fun hh => by cases hh; exact h rfl)

/-- Run the fueled mirror: when it returns a value, that value is
`generate_separators`. -/
theorem gsF_run (fuel : Nat) (mask : String)
    (h : (generate_separatorsF fuel mask).isSome = true) :
    generate_separators mask = (generate_separatorsF fuel mask).get h :=
  generate_separatorsF_sound fuel mask _ (Option.some_get h).symm

/-!
## Driver lemmas
-/

/-- A line that does not split into exactly two whitespace-separated
tokens is silently skipped: it contributes nothing to the output. -/
theorem fill_skip (raw : String) (lines masks : List String)
    (h : (pyWords raw.data).length ≠ 2) :
    fill_interstices (raw :: lines) masks = fill_interstices lines masks := by
  rw [fill_interstices, fill_interstices]
  cases hm : buildCache masks with
  | error e => rfl
  | ok sepss =>
    simp only [List.flatMap_cons]
    have hraw : (match pyWords raw.data with
        | [w1, w2] => sepss.flatMap (fun seps => seps.map (fun sep => w1 ++ sep ++ w2))
        | _ => ([] : List String)) = [] := by
      rcases hw : pyWords raw.data with _ | ⟨w1, _ | ⟨w2, _ | ⟨w3, t⟩⟩⟩
      · rfl
      · rfl
      · rw [hw] at h; simp at h
      · rfl
    rw [hraw]
    simp

/-- A retained line `w1 w2` contributes, before the rest of the output,
one block per mask in supply order, each block being that mask's cached
separators in order, each separator emitted as `w1 ++ sep ++ w2`. -/
theorem fill_retained (raw : String) (lines masks : List String)
    (w1 w2 : String) (sepss : List (List String))
    (hw : pyWords raw.data = [w1, w2])
    (hm : buildCache masks = Except.ok sepss) :
    fill_interstices (raw :: lines) masks =
      (fill_interstices lines masks).map
        (fun rest =>
          (sepss.flatMap (fun seps => seps.map (fun sep => w1 ++ sep ++ w2))) ++ rest) := by
  rw [fill_interstices, fill_interstices, hm]
  simp only [List.flatMap_cons, hw, Except.map]

/-!
## The claims
-/

/-- C2: for mask `?d?^` the result is exactly the ten digit strings each
followed by that digit's shift-row symbol, under the fixed mapping of the
symbol table. -/
theorem claim_C2 :
    generate_separators "?d?^" =
      Except.ok ["0)", "1!", "2@", "3#", "4$", "5%", "6^", "7&", "8*", "9("] ∧
    SHIFT_MAP '1' = some '!' ∧ SHIFT_MAP '2' = some '@' ∧ SHIFT_MAP '3' = some '#' ∧
    SHIFT_MAP '4' = some '$' ∧ SHIFT_MAP '5' = some '%' ∧ SHIFT_MAP '6' = some '^' ∧
    SHIFT_MAP '7' = some '&' ∧ SHIFT_MAP '8' = some '*' ∧ SHIFT_MAP '9' = some '(' ∧
    SHIFT_MAP '0' = some ')' := by
  exact ⟨generate_separatorsF_sound 1000 _ _ rfl, by decide⟩

/-- C3: a back-reference whose cursor points at or past the end of the
digit history produces zero children (the branch is silently pruned, not
an error), and a mask all of whose branches are pruned expands to the
empty sequence: `?^` and `?d\x7b?^?^\x7d-` both return an empty result,
without failing. -/
theorem claim_C3 :
    generate_separators "?^" = Except.ok [] ∧
    generate_separators "?d\x7b?^?^\x7d-" = Except.ok [] ∧
    (∀ (out : String) (st : EState), st.digits.length ≤ st.next_ref →
      childrenOf Element.caret out st = some []) := by
  exact ⟨generate_separatorsF_sound 1000 _ _ rfl,
    generate_separatorsF_sound 1000 _ _ rfl, caret_prune⟩

theorem claim_C3_witness :
    childrenOf Element.caret "w" (EState.mk [] 0) = some [] :=
  claim_C3.2.2 "w" (EState.mk [] 0) (by decide)

/-- C4: the reverse flag of a group reverses each emitted sub-output
string character-wise and changes nothing else: the resulting lists agree
pairwise up to string reversal, every resulting state (digit history and
cursor) is identical, and concretely the `\x7b?d?^\x7d-` result is the
`?d?^` result with each string reversed, length 10. -/
theorem claim_C4 :
    (∀ (sub : List Element) (st : EState),
      expand_elements [Element.group sub true] st =
        Option.map (List.map (fun p => (String.mk p.1.data.reverse, p.2)))
          (expand_elements [Element.group sub false] st)) ∧
    (∀ (sub : List Element) (st : EState),
      Option.map (List.map Prod.snd) (expand_elements [Element.group sub true] st) =
        Option.map (List.map Prod.snd) (expand_elements [Element.group sub false] st)) ∧
    generate_separators "\x7b?d?^\x7d-" =
      Except.ok [")0", "!1", "@2", "#3", "$4", "%5", "^6", "&7", "*8", "(9"] ∧
    generate_separators "\x7b?d?^\x7d-" =
      (generate_separators "?d?^").map (List.map (fun s => String.mk s.data.reverse)) ∧
    (generate_separators "\x7b?d?^\x7d-").map List.length = Except.ok 10 := by
  refine ⟨expand_group_reverse, ?_, ?_, ?_, ?_⟩
  · intro sub st
    rw [expand_group_reverse]
    cases he : expand_elements [Element.group sub false] st with
    | none => rfl
    | some l =>
      simp only [Option.map_some', List.map_map]
      rfl
  · exact generate_separatorsF_sound 1000 _ _ (by decide)
  · rw [gsF_run 1000 "\x7b?d?^\x7d-" (by decide), gsF_run 1000 "?d?^" (by decide)]
    decide
  · rw [gsF_run 1000 "\x7b?d?^\x7d-" (by decide)]
    decide

/-- C1: the expansion order is the deterministic left-to-right worklist
order — earlier worklist entries precede later ones, and a `DigitSlot`
fans each partial result out into exactly ten children in ascending digit
order `0`–`9`; concretely, mask `?d` yields exactly the ten digits in
ascending order, and `?d?d` yields 100 results from `00` to `99`. -/
theorem claim_C1 :
    (∀ (out : String) (st : EState), ∃ cs, childrenOf Element.d out st = some cs ∧
      cs.length = 10 ∧ ∀ k, k < 10 → cs.get? k = some (out.push (Char.ofNat (48 + k)),
        EState.mk (st.digits ++ [Char.ofNat (48 + k)]) st.next_ref)) ∧
    (∀ (el : Element) (out : String) (st : EState)
      (more cs ms : List (String × EState)),
      childrenOf el out st = some cs → stepOne el more = some ms →
      stepOne el ((out, st) :: more) = some (cs ++ ms)) ∧
    generate_separators "?d" =
      Except.ok ["0", "1", "2", "3", "4", "5", "6", "7", "8", "9"] ∧
    (generate_separators "?d?d").map List.length = Except.ok 100 ∧
    (generate_separators "?d?d").map List.head? = Except.ok (some "00") ∧
    (generate_separators "?d?d").map List.getLast? = Except.ok (some "99") := by
  refine ⟨childrenOf_d, stepOne_order, ?_, ?_, ?_, ?_⟩
  · exact generate_separatorsF_sound 1000 _ _ (by decide)
  · rw [gsF_run 1000 "?d?d" (by decide)]
    decide
  · rw [gsF_run 1000 "?d?d" (by decide)]
    decide
  · rw [gsF_run 1000 "?d?d" (by decide)]
    decide

theorem claim_C1_witness :
    stepOne (Element.lit 'x') [("a", EState.mk [] 0)] =
      some ([("ax", EState.mk [] 0)] ++ []) :=
  claim_C1.2.1 (Element.lit 'x') "a" (EState.mk [] 0) [] [("ax", EState.mk [] 0)] []
    (by rw [childrenOf]; rfl) (by rw [stepOne])

/-- C5 counterexample: the `ValueError` raised for an unmatched opener
reports the mask text only — for mask `ab\x7b`, whose unmatched opener
sits at index 2, the message contains no digit character at all, so it
does not identify the opener's position. -/
theorem claim_C5_counterexample :
    parse_mask "ab\x7b" = Except.error "Unmatched \x27\x7b\x27 in mask: ab\x7b" ∧
    ("Unmatched \x27\x7b\x27 in mask: ab\x7b").data.all (fun c => !c.isDigit) = true := by
  constructor
  · exact parse_maskF_sound 100 _ _ rfl
  · decide

/-- C5 (amended): a mask containing an unmatched group opener fails
parsing with the malformed-pattern `ValueError` whose message reports the
mask text, the error propagates through `generate_separators`, and no
expansion output is produced for that mask. -/
theorem claim_C5 (mask : String) (hb : bal 0 mask.data ≠ 0) :
    parse_mask mask = Except.error (unmatchedMsg mask.data) ∧
    generate_separators mask = Except.error (unmatchedMsg mask.data) := by
  have hp : parse_mask mask = Except.error (unmatchedMsg mask.data) := by
    rw [parse_mask, parseMaskL]
    exact (parse_spec mask.data.length mask.data mask.data (Nat.le_refl _)).2 hb
  refine ⟨hp, ?_⟩
  simp only [generate_separators, hp]

theorem claim_C5_witness :
    parse_mask "ab\x7b" = Except.error (unmatchedMsg "ab\x7b".data) ∧
    generate_separators "ab\x7b" = Except.error (unmatchedMsg "ab\x7b".data) :=
  claim_C5 "ab\x7b" (by decide)

/-- C6 counterexample: mask `\x7b` contains an unmatched opener and fails
to parse, yet appending the suffix `\x7d` yields a mask that parses
successfully — so parsing does not fail for *every* suffix appended after
the unmatched position. -/
theorem claim_C6_counterexample :
    bal 0 "\x7b".data ≠ 0 ∧
    parse_mask "\x7b" = Except.error (unmatchedMsg "\x7b".data) ∧
    parse_mask ("\x7b" ++ "\x7d") = Except.ok [Element.group [] false] := by
  exact ⟨by decide, parse_maskF_sound 100 _ _ rfl, parse_maskF_sound 100 _ _ rfl⟩

/-- C6 (amended): for every mask string that contains an unmatched opener
and every suffix that contains no close brace, parsing the concatenation
still fails (only a close brace in the suffix can complete the unmatched
opener). -/
theorem claim_C6 (m s : String) (hm : bal 0 m.data ≠ 0)
    (hs : ∀ c ∈ s.data, c ≠ '}') :
    parse_mask (m ++ s) = Except.error (unmatchedMsg (m ++ s).data) := by
  have hball : bal 0 (m ++ s).data ≠ 0 := by
    rw [String.data_append, bal_append]
    have h1 : 1 ≤ bal 0 m.data := Nat.one_le_iff_ne_zero.mpr hm
    have h2 := bal_no_close_ge s.data (bal 0 m.data) hs
    omega
  rw [parse_mask, parseMaskL]
  exact (parse_spec (m ++ s).data.length (m ++ s).data (m ++ s).data (Nat.le_refl _)).2 hball

theorem claim_C6_witness :
    parse_mask ("\x7b" ++ "a") = Except.error (unmatchedMsg ("\x7b" ++ "a").data) :=
  claim_C6 "\x7b" "a" (by decide) (by decide)

/-- C7: the driver silently skips every line whose whitespace-split token
count is not exactly two, and for each retained line emits
`word1 ++ sep ++ word2` with line order outermost, mask order middle and
separator order innermost; for lines `foo bar` and `baz qux` with single
mask `?d` the output is exactly the twenty combined lines in that order.
Whitespace is the full `str.split()` set: a line such as `foo\x1cbar`,
whose separator is the file-separator control character, still splits
into two tokens and is retained, not skipped. -/
theorem claim_C7 :
    (∀ (raw : String) (lines masks : List String),
      (pyWords raw.data).length ≠ 2 →
      fill_interstices (raw :: lines) masks = fill_interstices lines masks) ∧
    (∀ (raw : String) (lines masks : List String) (w1 w2 : String)
      (sepss : List (List String)),
      pyWords raw.data = [w1, w2] → buildCache masks = Except.ok sepss →
      fill_interstices (raw :: lines) masks =
        (fill_interstices lines masks).map
          (fun rest =>
            (sepss.flatMap (fun seps => seps.map (fun sep => w1 ++ sep ++ w2))) ++ rest)) ∧
    fill_interstices ["foo bar", "baz qux"] ["?d"] =
      Except.ok ["foo0bar", "foo1bar", "foo2bar", "foo3bar", "foo4bar",
        "foo5bar", "foo6bar", "foo7bar", "foo8bar", "foo9bar",
        "baz0qux", "baz1qux", "baz2qux", "baz3qux", "baz4qux",
        "baz5qux", "baz6qux", "baz7qux", "baz8qux", "baz9qux"] ∧
    pyWords "foo\x1cbar".data = ["foo", "bar"] ∧
    fill_interstices ["foo\x1cbar"] ["?d"] =
      Except.ok ["foo0bar", "foo1bar", "foo2bar", "foo3bar", "foo4bar",
        "foo5bar", "foo6bar", "foo7bar", "foo8bar", "foo9bar"] := by
  exact ⟨fill_skip, fill_retained, fill_intersticesF_sound 1000 _ _ _ rfl,
    by decide, fill_intersticesF_sound 1000 _ _ _ rfl⟩

theorem claim_C7_witness :
    fill_interstices ["oops"] [] = fill_interstices [] [] :=
  claim_C7.1 "oops" [] [] (by decide)

/-- C8: the empty mask is accepted — it parses to the empty element
sequence and expands to exactly one separator, the empty string, so the
driver emits `word1 ++ word2` exactly once per retained line. -/
theorem claim_C8 :
    parse_mask "" = Except.ok [] ∧
    generate_separators "" = Except.ok [""] ∧
    fill_interstices ["foo bar", "baz qux"] [""] =
      Except.ok ["foobar", "bazqux"] := by
  exact ⟨parse_maskF_sound 100 _ _ rfl, generate_separatorsF_sound 100 _ _ rfl,
    fill_intersticesF_sound 1000 _ _ _ rfl⟩

theorem unmatchedMsg_ne_key (x : List Char) : unmatchedMsg x ≠ "KeyError" := by
  intro h
  have hd := congrArg String.data h
  rw [unmatchedMsg, String.data_append] at hd
  have hlen := congrArg List.length hd
  simp at hlen

/-- C9: every character ever appended to a digit history is one of the
ten digit characters — the invariant is preserved by every engine step —
so the symbol-table lookup of a back-reference is always defined: the
engine never takes its `KeyError` branch from any state reachable from
the initial one, for any mask. -/
theorem claim_C9 :
    (∀ (elems : List Element) (st : EState), GoodSt st →
      ∃ l, expand_elements elems st = some l ∧ GoodRes l) ∧
    (∀ (mask : String) (ast : List Element), parse_mask mask = Except.ok ast →
      expand_elements ast (EState.mk [] 0) ≠ none) ∧
    (∀ mask : String, generate_separators mask ≠ Except.error "KeyError") := by
  have hinit : GoodSt (EState.mk [] 0) := fun c hc => absurd hc (List.not_mem_nil c)
  refine ⟨expand_elements_good, ?_, ?_⟩
  · intro mask ast _
    obtain ⟨l, hl, _⟩ := expand_elements_good ast (EState.mk [] 0) hinit
    rw [hl]
    simp
  · intro mask
    cases hp : parse_mask mask with
    | error e =>
      have hb : bal 0 mask.data ≠ 0 := by
        intro h0
        obtain ⟨es, hes⟩ :=
          (parse_spec mask.data.length mask.data mask.data (Nat.le_refl _)).1 h0
        rw [parse_mask, parseMaskL] at hp
        rw [hes] at hp
        cases hp
      have he : e = unmatchedMsg mask.data := by
        have := (parse_spec mask.data.length mask.data mask.data (Nat.le_refl _)).2 hb
        rw [parse_mask, parseMaskL] at hp
        rw [this] at hp
        exact (Except.error.inj hp).symm
      subst he
      simp only [generate_separators, hp]
      intro hcontra
      exact unmatchedMsg_ne_key mask.data (Except.error.inj hcontra)
    | ok ast =>
      obtain ⟨l, hl, _⟩ := expand_elements_good ast (EState.mk [] 0) hinit
      simp only [generate_separators, hp, hl]
      intro hcontra
      cases hcontra

theorem claim_C9_witness :
    ∃ l, expand_elements [Element.d, Element.caret] (EState.mk [] 0) = some l ∧
      GoodRes l :=
  claim_C9.1 [Element.d, Element.caret] (EState.mk [] 0)
    (fun c hc => absurd hc (List.not_mem_nil c))

/-- C10: a close brace with no matching opener is a plain literal, not a
parse error — `\x7d` parses to a literal element and expands to itself —
and `parse_mask` fails exactly on the masks whose brace counter leaves an
opener unmatched. -/
theorem claim_C10 :
    parse_mask "\x7d" = Except.ok [Element.lit '}'] ∧
    generate_separators "\x7d" = Except.ok ["\x7d"] ∧
    (∀ mask : String, (∃ e, parse_mask mask = Except.error e) ↔ bal 0 mask.data ≠ 0) := by
  refine ⟨parse_maskF_sound 100 _ _ rfl, generate_separatorsF_sound 100 _ _ rfl, ?_⟩
  · intro mask
    constructor
    · rintro ⟨e, he⟩
      intro h0
      obtain ⟨es, hes⟩ :=
        (parse_spec mask.data.length mask.data mask.data (Nat.le_refl _)).1 h0
      rw [parse_mask, parseMaskL, hes] at he
      cases he
    · intro hb
      refine ⟨unmatchedMsg mask.data, ?_⟩
      rw [parse_mask, parseMaskL]
      exact (parse_spec mask.data.length mask.data mask.data (Nat.le_refl _)).2 hb

theorem claim_C10_witness :
    ∃ e, parse_mask "\x7b" = Except.error e :=
  (claim_C10.2.2 "\x7b").mpr (by decide)

end Fill
